import Mathlib

/-!
Verification development for the chain-state synchronization engine consisting of
`syncNFTMetadata.js` (ownership/metadata sync with rotating RPC endpoints) and
`syncSeaportOrders.js` (chunked, retrying Seaport event-log scanner).

The JavaScript sources are shallowly embedded: network-facing calls (RPC reads,
metadata fetch, backend POST) are modelled as explicit `Except`/`Bool`-valued
response functions packaged in a chain-model structure, and the scripts' control
flow (retry loops, chunked while-loop, batch loop, endpoint rotation) is
translated function by function.
-/

/-- JavaScript string coercion `s || null`: the empty string is falsy and maps to
`null`; every other string is kept. -/
def jsStrOrNull (s : String) : Option String :=
  if s = "" then none else some s

/-- JavaScript truthiness of an optional string env variable (`!x` is true for
`undefined` and for the empty string). -/
def jsFalsy : Option String → Bool
  | none => true
  | some s => s = ""

/-! ## Chunked scanner (`syncSeaportOrders.js`) -/

/-- Chunk width of the scanner, `const CHUNK = 5000` in `syncSeaportOrders.js`. -/
def CHUNK : Int := 5000

/-- The sub-ranges issued by the `queryInChunks` while-loop: starting from
`fromBlock`, each iteration covers `[start, min (start + CHUNK) toBlock]` and the
next iteration starts at `end + 1`. -/
def chunkRanges (fromBlock toBlock : Int) : List (Int × Int) :=
  if h : fromBlock ≤ toBlock then
    (fromBlock, min (fromBlock + CHUNK) toBlock) ::
      chunkRanges (min (fromBlock + CHUNK) toBlock + 1) toBlock
  else []
termination_by (toBlock + 1 - fromBlock).toNat
decreasing_by
  simp only [CHUNK] at *
  omega

/-- One run of the `queryInChunks` while-loop with per-chunk callback `cb`: each
iteration records the sub-range it issued together with the log entries the
callback produced; a throwing callback is caught (`try/catch` around
`await callback(start, end)`) and contributes no entries, and the loop continues
with the next sub-range. -/
def runChunks {α : Type} (cb : Int → Int → Except String (List α))
    (fromBlock toBlock : Int) : List ((Int × Int) × List α) :=
  if h : fromBlock ≤ toBlock then
    ((fromBlock, min (fromBlock + CHUNK) toBlock),
      match cb fromBlock (min (fromBlock + CHUNK) toBlock) with
      | .ok ls => ls
      | .error _ => []) ::
      runChunks cb (min (fromBlock + CHUNK) toBlock + 1) toBlock
  else []
termination_by (toBlock + 1 - fromBlock).toNat
decreasing_by
  simp only [CHUNK] at *
  omega

/-- The flattened log stream a `queryInChunks` run yields, in the order the
chunks produced it. -/
def chunkLogs {α : Type} (cb : Int → Int → Except String (List α))
    (fromBlock toBlock : Int) : List α :=
  (runChunks cb fromBlock toBlock).flatMap Prod.snd

/-- The retrying wrapper `safeQueryFilter(filter, from, to, retry)`: attempt the
query; on failure, if `retry < 3`, wait `2000 * (retry + 1)` ms and recurse with
`retry + 1`, otherwise rethrow. `q k` is the outcome of the k-th attempt
(0-indexed). The model returns the final result together with the number of
attempts actually performed and the list of delays waited (in ms). -/
def safeQueryGo {α : Type} (q : Nat → Except String α) (retry : Nat) :
    Except String α × Nat × List Nat :=
  match q retry with
  | .ok v => (.ok v, 1, [])
  | .error e =>
    if h : retry < 3 then
      let r := safeQueryGo q (retry + 1)
      (r.1, r.2.1 + 1, 2000 * (retry + 1) :: r.2.2)
    else (.error e, 1, [])
termination_by 3 - retry

/-- Entry point of the retry wrapper: `safeQueryFilter` is called with the
default `retry = 0`. -/
def safeQueryFilter {α : Type} (q : Nat → Except String α) :
    Except String α × Nat × List Nat :=
  safeQueryGo q 0

/-- A raw event log entry as returned by `queryFilter`: its block number plus an
opaque index identifying it. -/
structure RawLog where
  blockNumber : Int
  logIndex : Nat
deriving DecidableEq

/-- Model of `contract.queryFilter(filter, from, to)` against a fixed chain
history: the logs of the history whose block number lies in `[lo, hi]`, in
history order. -/
def queryFilterModel (chain : List RawLog) (lo hi : Int) : List RawLog :=
  chain.filter (fun l => decide (lo ≤ l.blockNumber ∧ l.blockNumber ≤ hi))

/-! ## Event normalizer (`syncSeaportOrders.js`, the three passes of `main`) -/

/-- An offer item of a Seaport order event:
`tuple(address token, address conduit, uint256 identifier, uint256 startAmount, uint256 endAmount)`. -/
structure OfferItem where
  token : String
  conduit : String
  identifier : Nat
  startAmount : Nat
  endAmount : Nat
deriving DecidableEq

/-- A consideration item of a Seaport order event:
`tuple(address token, address recipient, uint256 identifier, uint256 startAmount, uint256 endAmount)`. -/
structure ConsiderationItem where
  token : String
  recipient : String
  identifier : Nat
  startAmount : Nat
  endAmount : Nat
deriving DecidableEq

/-- A decoded `OrderValidated` log entry together with its block number. -/
structure ValidatedLog where
  orderHash : String
  offerer : String
  zone : String
  offer : List OfferItem
  consideration : List ConsiderationItem
  blockNumber : Int
deriving DecidableEq

/-- A decoded `OrderFulfilled` log entry together with its block number. -/
structure FulfilledLog where
  orderHash : String
  offerer : String
  fulfiller : String
  offer : List OfferItem
  consideration : List ConsiderationItem
  blockNumber : Int
deriving DecidableEq

/-- A decoded `OrderCancelled` log entry together with its block number. -/
structure CancelledLog where
  orderHash : String
  offerer : String
  blockNumber : Int
deriving DecidableEq

/-- The JSON payload POSTed to the backend for one order event (the constant
`image: null` field is kept; the opaque `seaportOrder` echo of the raw args is
not modelled). -/
structure OrderPayload where
  tokenId : Option String
  price : Option String
  sellerAddress : Option String
  buyerAddress : Option String
  orderHash : String
  image : Option String
  nftContract : String
  marketplaceContract : String
  status : String
  onChainBlock : Int
deriving DecidableEq

/-- Trailing-zero trimming of ethers v5 `formatFixed`: the regex
`^([0-9]*[1-9]|0)(0*)` keeps the fraction digits up to the last non-zero digit,
or a single `0` when every digit is zero. -/
def trimTrailingZeros (s : String) : String :=
  let t := String.mk (s.data.reverse.dropWhile (fun c => c == '0')).reverse
  if t = "" then "0" else t

/-- Model of `ethers.utils.formatUnits(value, 18)` (ethers v5 `formatFixed`):
split `value` by `10^18`, left-pad the fraction digits to 18 places, trim
trailing zeros keeping at least one digit, and join with `"."`. -/
def formatUnits18 (value : Nat) : String :=
  let fraction0 := toString (value % 10 ^ 18)
  let fraction := String.mk (List.replicate (18 - fraction0.length) '0' ++ fraction0.data)
  toString (value / 10 ^ 18) ++ "." ++ trimTrailingZeros fraction

/-- Payload built in the `OrderValidated` pass of `main`. `offer?.[0]` /
`consideration?.[0]` degrade to `null` fields on an empty array; the
`startAmount ? ... : null` guard tests a BigNumber object, which is always
truthy when the consideration item exists. -/
def normalizeValidated (nftAddr marketAddr : String) (ev : ValidatedLog) : OrderPayload :=
  { tokenId := ev.offer.head?.bind (fun o => jsStrOrNull (toString o.identifier))
    price := ev.consideration.head?.map (fun c => formatUnits18 c.startAmount)
    sellerAddress := jsStrOrNull ev.offerer.toLower
    buyerAddress := none
    orderHash := ev.orderHash
    image := none
    nftContract := nftAddr
    marketplaceContract := marketAddr
    status := "active"
    onChainBlock := ev.blockNumber }

/-- Payload built in the `OrderFulfilled` pass of `main`. -/
def normalizeFulfilled (nftAddr marketAddr : String) (ev : FulfilledLog) : OrderPayload :=
  { tokenId := ev.offer.head?.bind (fun o => jsStrOrNull (toString o.identifier))
    price := ev.consideration.head?.map (fun c => formatUnits18 c.startAmount)
    sellerAddress := jsStrOrNull ev.offerer.toLower
    buyerAddress := jsStrOrNull ev.fulfiller.toLower
    orderHash := ev.orderHash
    image := none
    nftContract := nftAddr
    marketplaceContract := marketAddr
    status := "fulfilled"
    onChainBlock := ev.blockNumber }

/-- Payload built in the `OrderCancelled` pass of `main`. -/
def normalizeCancelled (nftAddr marketAddr : String) (ev : CancelledLog) : OrderPayload :=
  { tokenId := none
    price := none
    sellerAddress := jsStrOrNull ev.offerer.toLower
    buyerAddress := none
    orderHash := ev.orderHash
    image := none
    nftContract := nftAddr
    marketplaceContract := marketAddr
    status := "cancelled"
    onChainBlock := ev.blockNumber }

/-! ## Seaport orchestrator (`syncSeaportOrders.js`, env check / initProvider / main) -/

/-- The environment variables consumed by `syncSeaportOrders.js`. `FROM_BLOCK`
is kept already parsed (`parseInt` of the raw variable, defaulting to 0). -/
structure SeaportEnv where
  BACKEND_URL : Option String
  NFT_CONTRACT_ADDRESS : Option String
  SEAPORT_CONTRACT_ADDRESS : Option String
  APECHAIN_RPC : Option String
  FROM_BLOCK : Int

/-- Responses of the external world to `syncSeaportOrders.js`: per-endpoint
block-height probes, per-sub-range and per-attempt event queries (the extra
`Nat` is the attempt index of the retry wrapper, so transient failures can be
expressed), and the backend's accept/reject answer for one POSTed payload. -/
structure SeaportChain where
  getBlockNumber : String → Except String Int
  queryValidated : Int → Int → Nat → Except String (List ValidatedLog)
  queryFulfilled : Int → Int → Nat → Except String (List FulfilledLog)
  queryCancelled : Int → Int → Nat → Except String (List CancelledLog)
  postOrderEvent : OrderPayload → Bool

/-- The `RPC_LIST` array of `syncSeaportOrders.js`: the optional configured
endpoint followed by three fixed public fallbacks. -/
def seaportRPCList (env : SeaportEnv) : List (Option String) :=
  [env.APECHAIN_RPC,
   some "https://rpc.apechain.com/http",
   some "https://apechain.drpc.org",
   some "https://33139.rpc.thirdweb.com"]

/-- The `initProvider` loop: skip falsy entries (`if (!rpc) continue`), probe
each remaining endpoint with `getBlockNumber`, and keep the first one that
answers; `none` when every probe fails. -/
def initProvider (env : SeaportEnv) (ch : SeaportChain) : Option String :=
  ((seaportRPCList env).filterMap (fun o => o.bind jsStrOrNull)).find?
    (fun r => (ch.getBlockNumber r).isOk)

/-- Number of accepted posts in one event pass: every log entry the chunked
scan yielded is normalized and POSTed, and the pass counter is incremented
exactly when the backend accepted the payload. -/
def countPosts {α : Type} (post : α → Bool) (cb : Int → Int → Except String (List α))
    (lo hi : Int) : Nat :=
  ((chunkLogs cb lo hi).filter post).length

/-- The whole `syncSeaportOrders.js` process: the module-level env check and
`main` (initProvider, block-range determination, three chunked passes). The
result is `.error ()` exactly on the paths that call `process.exit(1)`, and
otherwise the three run counters (active, fulfilled, cancelled). -/
def seaportMain (env : SeaportEnv) (ch : SeaportChain) : Except Unit (Nat × Nat × Nat) :=
  if jsFalsy env.BACKEND_URL || jsFalsy env.NFT_CONTRACT_ADDRESS
      || jsFalsy env.SEAPORT_CONTRACT_ADDRESS then
    .error ()
  else
    match initProvider env ch with
    | none => .error ()
    | some p =>
      match ch.getBlockNumber p with
      | .error _ => .error ()
      | .ok latestBlock =>
        let nftAddr := env.NFT_CONTRACT_ADDRESS.getD ""
        let marketAddr := env.SEAPORT_CONTRACT_ADDRESS.getD ""
        let active := countPosts
          (fun ev => ch.postOrderEvent (normalizeValidated nftAddr marketAddr ev))
          (fun s e => (safeQueryFilter (fun k => ch.queryValidated s e k)).1)
          env.FROM_BLOCK latestBlock
        let fulfilled := countPosts
          (fun ev => ch.postOrderEvent (normalizeFulfilled nftAddr marketAddr ev))
          (fun s e => (safeQueryFilter (fun k => ch.queryFulfilled s e k)).1)
          env.FROM_BLOCK latestBlock
        let cancelled := countPosts
          (fun ev => ch.postOrderEvent (normalizeCancelled nftAddr marketAddr ev))
          (fun s e => (safeQueryFilter (fun k => ch.queryCancelled s e k)).1)
          env.FROM_BLOCK latestBlock
        .ok (active, fulfilled, cancelled)

/-- Exit code of the `syncSeaportOrders.js` process. -/
def seaportExitCode (env : SeaportEnv) (ch : SeaportChain) : Nat :=
  match seaportMain env ch with
  | .ok _ => 0
  | .error _ => 1

/-! ## Ownership sync (`syncNFTMetadata.js`) -/

/-- An `OwnershipRecord` as upserted into the `nfts` table. -/
structure NftRecord where
  token_id : String
  nft_contract : String
  owner_address : String
  name : Option String
deriving DecidableEq

/-- Responses of the external world to `syncNFTMetadata.js`: the configured
primary endpoint and contract address, per-endpoint contract reads, and the
metadata fetch (its `Option String` is the parsed JSON's `name` after the
`metadata.name || null` coercion; `.error` is a network / non-JSON failure). -/
structure NftChain where
  apechainRpc : String
  contractAddress : String
  ownerOf : String → Nat → Except String String
  tokenURI : String → Nat → Except String String
  totalSupply : String → Except String Nat
  fetchName : String → Except String (Option String)

/-- The `RPC_LIST` array of `syncNFTMetadata.js`: the configured endpoint
followed by three fixed public fallbacks. -/
def RPC_LIST (ch : NftChain) : List String :=
  [ch.apechainRpc,
   "https://rpc.apechain.com/http",
   "https://apechain.drpc.org",
   "https://33139.rpc.thirdweb.com"]

/-- The `getProvider` rotation: read `RPC_LIST[providerIndex % RPC_LIST.length]`
and post-increment the process-wide `providerIndex`. -/
def getProvider (ch : NftChain) (providerIndex : Nat) : String × Nat :=
  ((RPC_LIST ch).getD (providerIndex % (RPC_LIST ch).length) "", providerIndex + 1)

/-- The mutable module-level provider state: the rotation index and the endpoint
the current provider/contract pair is bound to. -/
structure ProvState where
  providerIndex : Nat
  current : String
deriving DecidableEq

/-- Rebinding `provider = getProvider(); nftContract = new ethers.Contract(...)`. -/
def rotateProvider (ch : NftChain) (st : ProvState) : ProvState :=
  { providerIndex := (getProvider ch st.providerIndex).2
    current := (getProvider ch st.providerIndex).1 }

/-- The provider state after module load (`let provider = getProvider()` with
the initial `providerIndex = 0`). -/
def initialProvState (ch : NftChain) : ProvState :=
  rotateProvider ch { providerIndex := 0, current := "" }

/-- The RPC fallback loop of `processNFT` (`for (let i = 0; i < RPC_LIST.length; i++)`):
read `ownerOf` then `tokenURI` on the currently bound endpoint; on either
failure rotate the provider and try again; `none` after the given number of
remaining iterations is exhausted. -/
def tryReads (ch : NftChain) (tokenId : Nat) :
    Nat → ProvState → ProvState × Option (String × String)
  | 0, st => (st, none)
  | k + 1, st =>
    match ch.ownerOf st.current tokenId with
    | .error _ => tryReads ch tokenId k (rotateProvider ch st)
    | .ok owner =>
      match ch.tokenURI st.current tokenId with
      | .error _ => tryReads ch tokenId k (rotateProvider ch st)
      | .ok uri => (st, some (owner, uri))

/-- The `ipfs://` rewrite of `processNFT`: a content-addressed URI is rewritten
to the `https://ipfs.io/ipfs/` gateway (`String.replace` of the leading prefix,
guarded by `startsWith`). -/
def toGatewayURL (uri : String) : String :=
  if uri.startsWith "ipfs://" then "https://ipfs.io/ipfs/" ++ uri.drop 7 else uri

/-- One `processNFT(tokenId)` call: run the fallback loop over the whole
endpoint list; when it is exhausted, `throw` is caught by the outer `catch` and
no record is upserted; on success, fetch the metadata name best-effort (`null`
on any failure) and produce the upserted record. -/
def processNFT (ch : NftChain) (st : ProvState) (tokenId : Nat) :
    ProvState × Option NftRecord :=
  match tryReads ch tokenId (RPC_LIST ch).length st with
  | (st', none) => (st', none)
  | (st', some (owner, uri)) =>
    (st', some
      { token_id := toString tokenId
        nft_contract := ch.contractAddress
        owner_address := owner.toLower
        name :=
          match ch.fetchName (toGatewayURL uri) with
          | .ok v => v
          | .error _ => none })

/-- Sequential processing of one batch of token ids. `Promise.allSettled` runs
the batch concurrently, but the only shared state is the single-writer provider
binding (spec §5), so the run is serialized in batch order here. -/
def runTokens (ch : NftChain) : ProvState → List Nat → ProvState × List NftRecord
  | st, [] => (st, [])
  | st, t :: ts =>
    let s1 := processNFT ch st t
    let s2 := runTokens ch s1.1 ts
    (s2.1, s1.2.toList ++ s2.2)

/-- The batch width, `const BATCH_SIZE = 20`. -/
def BATCH_SIZE : Nat := 20

/-- The batch loop of `main`
(`for (let i = 0; i < totalSupply; i += BATCH_SIZE)` with
`batch = Array.from({length: BATCH_SIZE}, (_, j) => i + j).filter(id => id < totalSupply)`). -/
def batchLoop (ch : NftChain) (total : Nat) (st : ProvState) (i : Nat) :
    ProvState × List NftRecord :=
  if h : i < total then
    let batch := ((List.range BATCH_SIZE).map (fun j => i + j)).filter
      (fun id => id < total)
    let s1 := runTokens ch st batch
    let s2 := batchLoop ch total s1.1 (i + BATCH_SIZE)
    (s2.1, s1.2 ++ s2.2)
  else (st, [])
termination_by total - i
decreasing_by
  simp only [BATCH_SIZE] at *
  omega

/-- The whole `syncNFTMetadata.js` process: read `totalSupply` through the
initially bound contract; a failure there is the fatal path
(`process.exit(1)`); otherwise run the batch loop and report every record that
was upserted, in upsert order. -/
def nftMain (ch : NftChain) : Except Unit (List NftRecord) :=
  match ch.totalSupply (initialProvState ch).current with
  | .error _ => .error ()
  | .ok n => .ok (batchLoop ch n (initialProvState ch) 0).2

/-- Exit code of the `syncNFTMetadata.js` process. -/
def nftExitCode (ch : NftChain) : Nat :=
  match nftMain ch with
  | .ok _ => 0
  | .error _ => 1

/-- The record `processNFT` produces for a token whose on-chain reads succeed
with owner `owners t` and URI `uris t` (regardless of which endpoint served
them). -/
def expectedRecord (ch : NftChain) (owners uris : Nat → String) (t : Nat) : NftRecord :=
  { token_id := toString t
    nft_contract := ch.contractAddress
    owner_address := (owners t).toLower
    name :=
      match ch.fetchName (toGatewayURL (uris t)) with
      | .ok v => v
      | .error _ => none }

/-- Modelled from the spec: the external store behind `supabase.from("nfts").upsert`
(not part of the repository) is, per §3/§6, a keyed sink with conflict
resolution = overwrite on the `token_id` key. -/
def upsertRecord (store : String → Option NftRecord) (r : NftRecord) :
    String → Option NftRecord :=
  fun k => if k = r.token_id then some r else store k

/-- Modelled from the spec: delivering a run's records to the store in order,
one `upsert` per record. -/
def applyUpserts (store : String → Option NftRecord) (rs : List NftRecord) :
    String → Option NftRecord :=
  rs.foldl upsertRecord store

/-! ## Concrete instances used by witnesses and counterexamples -/

/-- The scanner as instantiated by `main`: the per-chunk callback queries the
chain history for the logs of the sub-range. -/
def scanChain (chain : List RawLog) (a b : Int) : List RawLog :=
  chunkLogs (fun lo hi => .ok (queryFilterModel chain lo hi)) a b

/-- A per-chunk callback whose query throws on every sub-range. -/
def cbFail : Int → Int → Except String (List RawLog) :=
  fun _ _ => .error "boom"

/-- A query that fails on every attempt. -/
def qFail : Nat → Except String (List RawLog) :=
  fun _ => .error "boom"

/-- A query that succeeds on every attempt. -/
def qOk : Nat → Except String (List RawLog) :=
  fun _ => .ok []

/-- A two-log chain history sorted by block number. -/
def chainS : List RawLog :=
  [{ blockNumber := 10, logIndex := 0 }, { blockNumber := 5500, logIndex := 1 }]

/-- A decoded `OrderValidated` log with an empty offer array. -/
def evValidatedA : ValidatedLog :=
  { orderHash := "0xaaa"
    offerer := "0xSELLER"
    zone := "0xzone"
    offer := []
    consideration := []
    blockNumber := 123 }

/-- A consideration item whose start amount is one whole 18-decimals token. -/
def considerationOne : ConsiderationItem :=
  { token := "0xtok"
    recipient := "0xrcpt"
    identifier := 7
    startAmount := 1000000000000000000
    endAmount := 1000000000000000000 }

/-- A decoded `OrderFulfilled` log whose first consideration item is
`considerationOne`. -/
def evFulfilledA : FulfilledLog :=
  { orderHash := "0xbbb"
    offerer := "0xSELLER"
    fulfiller := "0xBUYER"
    offer := [{ token := "0xtok", conduit := "0xcond", identifier := 7,
                startAmount := 1, endAmount := 1 }]
    consideration := [considerationOne]
    blockNumber := 124 }

/-- A chain where every read of token 1 fails on every endpoint, every other
token reads fine everywhere, and every metadata fetch times out
(the spec's example: totalSupply = 3, token 1 dead). -/
def nftChainA : NftChain :=
  { apechainRpc := "https://rpc.example"
    contractAddress := "0xCONTRACT"
    ownerOf := fun _ t => if t = 1 then .error "down" else .ok "0xOWNER"
    tokenURI := fun _ t => if t = 1 then .error "down" else .ok "ipfs://QmX"
    totalSupply := fun _ => .ok 3
    fetchName := fun _ => .error "timeout" }

/-- The per-token success classifier matching `nftChainA`. -/
def goodA : Nat → Bool := fun t => t != 1

/-- The owner every successful read of `nftChainA` reports. -/
def ownersA : Nat → String := fun _ => "0xOWNER"

/-- The token URI every successful read of `nftChainA` reports. -/
def urisA : Nat → String := fun _ => "ipfs://QmX"

/-- A chain whose configured primary endpoint is dead while the first public
fallback endpoint answers every call. -/
def nftChainB : NftChain :=
  { apechainRpc := "https://rpc.example"
    contractAddress := "0xCONTRACT"
    ownerOf := fun _ _ => .ok "0xOWNER"
    tokenURI := fun _ _ => .ok "uri"
    totalSupply := fun e =>
      if e = "https://rpc.apechain.com/http" then .ok 5 else .error "down"
    fetchName := fun _ => .ok (some "Ape") }

/-- A fully configured environment for the order sync. -/
def seaportEnvA : SeaportEnv :=
  { BACKEND_URL := some "https://backend.example"
    NFT_CONTRACT_ADDRESS := some "0xNFT"
    SEAPORT_CONTRACT_ADDRESS := some "0xSEAPORT"
    APECHAIN_RPC := none
    FROM_BLOCK := 0 }

/-- A world where only the second public fallback endpoint is alive, every
event query throws, and the backend rejects every POST: per-item failures
everywhere, but no startup-level fatal condition. -/
def seaportChainA : SeaportChain :=
  { getBlockNumber := fun r =>
      if r = "https://apechain.drpc.org" then .ok 9000 else .error "down"
    queryValidated := fun _ _ _ => .error "flaky"
    queryFulfilled := fun _ _ _ => .ok []
    queryCancelled := fun _ _ _ => .ok []
    postOrderEvent := fun _ => false }

/-- The empty record store. -/
def storeEmpty : String → Option NftRecord := fun _ => none

/-! ## Scanner lemmas -/

theorem runChunks_map_fst {α : Type} (cb : Int → Int → Except String (List α))
    (a b : Int) : (runChunks cb a b).map Prod.fst = chunkRanges a b := by
  induction a, b using chunkRanges.induct with
  | case1 a b h ih =>
    rw [runChunks, chunkRanges]
    simp only [dif_pos h, List.map_cons, ih]
  | case2 a b h =>
    rw [runChunks, chunkRanges]
    simp only [dif_neg h, List.map_nil]

theorem chunkRanges_mem (a b : Int) :
    ∀ p ∈ chunkRanges a b, a ≤ p.1 ∧ p.1 ≤ p.2 ∧ p.2 ≤ b ∧ p.2 - p.1 ≤ CHUNK := by
  induction a, b using chunkRanges.induct with
  | case1 a b h ih =>
    intro p hp
    rw [chunkRanges] at hp
    simp only [dif_pos h, List.mem_cons] at hp
    rcases hp with rfl | hp
    · simp only [CHUNK] at *
      constructor
      · omega
      constructor
      · simp
        omega
      constructor
      · simp
      · simp
        omega
    · have := ih p hp
      simp only [CHUNK] at *
      omega
  | case2 a b h =>
    intro p hp
    rw [chunkRanges] at hp
    simp only [dif_neg h, List.not_mem_nil] at hp

theorem chunkRanges_length : ∀ a b : Int, a ≤ b →
    (chunkRanges a b).length = (b - a).toNat / (CHUNK.toNat + 1) + 1 := by
  intro a b
  induction a, b using chunkRanges.induct with
  | case1 a b h1 ih =>
    intro _
    rw [chunkRanges]
    simp only [dif_pos h1, List.length_cons]
    by_cases h2 : min (a + CHUNK) b + 1 ≤ b
    · rw [ih h2]
      have hdiv : CHUNK.toNat + 1 = 5001 := rfl
      rw [hdiv]
      simp only [CHUNK] at *
      omega
    · rw [chunkRanges]
      rw [dif_neg h2]
      simp only [List.length_nil]
      have hdiv : CHUNK.toNat + 1 = 5001 := rfl
      rw [hdiv]
      simp only [CHUNK] at *
      omega
  | case2 a b h1 =>
    intro h
    exact absurd h h1

theorem chunkRanges_head?_fst (a b : Int) :
    ∀ p ∈ (chunkRanges a b).head?, p.1 = a := by
  intro p hp
  rw [chunkRanges] at hp
  by_cases h : a ≤ b
  · simp only [dif_pos h, List.head?_cons, Option.mem_def, Option.some.injEq] at hp
    rw [← hp]
  · simp only [dif_neg h, List.head?_nil, Option.mem_def] at hp
    exact absurd hp (by simp)

theorem chunkRanges_chain (a b : Int) :
    (chunkRanges a b).Chain' (fun p q => q.1 = p.2 + 1 ∧ p.1 < q.1) := by
  induction a, b using chunkRanges.induct with
  | case1 a b h ih =>
    rw [chunkRanges]
    simp only [dif_pos h]
    rw [List.chain'_cons']
    refine ⟨?_, ih⟩
    intro y hy
    have hy1 := chunkRanges_head?_fst _ _ y hy
    dsimp only
    rw [hy1]
    refine ⟨rfl, ?_⟩
    simp only [CHUNK] at *
    omega
  | case2 a b h =>
    rw [chunkRanges]
    simp only [dif_neg h]
    exact List.chain'_nil

theorem queryFilterModel_mem (chain : List RawLog) (lo hi : Int) :
    ∀ l ∈ queryFilterModel chain lo hi, lo ≤ l.blockNumber ∧ l.blockNumber ≤ hi := by
  intro l hl
  unfold queryFilterModel at hl
  rw [List.mem_filter] at hl
  simpa using hl.2

theorem scanChain_eq (chain : List RawLog) (a b : Int) :
    scanChain chain a b =
      if a ≤ b then
        queryFilterModel chain a (min (a + CHUNK) b) ++
          scanChain chain (min (a + CHUNK) b + 1) b
      else [] := by
  unfold scanChain chunkLogs
  rw [runChunks]
  by_cases h : a ≤ b
  · simp only [dif_pos h, if_pos h, List.flatMap_cons]
  · simp only [dif_neg h, if_neg h, List.flatMap_nil]

theorem scanChain_mem (chain : List RawLog) : ∀ a b : Int,
    ∀ l ∈ scanChain chain a b, a ≤ l.blockNumber ∧ l.blockNumber ≤ b := by
  intro a b
  induction a, b using chunkRanges.induct with
  | case1 a b h ih =>
    intro l hl
    rw [scanChain_eq, if_pos h] at hl
    rcases List.mem_append.1 hl with h1 | h2
    · have := queryFilterModel_mem chain _ _ l h1
      simp only [CHUNK] at *
      omega
    · have := ih l h2
      simp only [CHUNK] at *
      omega
  | case2 a b h =>
    intro l hl
    rw [scanChain_eq, if_neg h] at hl
    exact absurd hl (List.not_mem_nil l)

theorem scanChain_sorted (chain : List RawLog)
    (hs : chain.Pairwise (fun x y => x.blockNumber ≤ y.blockNumber)) :
    ∀ a b : Int,
      (scanChain chain a b).Pairwise (fun x y => x.blockNumber ≤ y.blockNumber) := by
  intro a b
  induction a, b using chunkRanges.induct with
  | case1 a b h ih =>
    rw [scanChain_eq, if_pos h]
    rw [List.pairwise_append]
    refine ⟨hs.filter _, ih, ?_⟩
    intro x hx y hy
    have hx2 := (queryFilterModel_mem chain _ _ x hx).2
    have hy1 := (scanChain_mem chain _ _ y hy).1
    omega
  | case2 a b h =>
    rw [scanChain_eq, if_neg h]
    exact List.Pairwise.nil

theorem runChunks_snd {α : Type} (cb : Int → Int → Except String (List α)) :
    ∀ a b : Int, ∀ r ∈ runChunks cb a b,
      r.2 = match cb r.1.1 r.1.2 with
        | .ok ls => ls
        | .error _ => [] := by
  intro a b
  induction a, b using chunkRanges.induct with
  | case1 a b h ih =>
    intro r hr
    rw [runChunks] at hr
    simp only [dif_pos h, List.mem_cons] at hr
    rcases hr with rfl | hr
    · rfl
    · exact ih r hr
  | case2 a b h =>
    intro r hr
    rw [runChunks] at hr
    simp only [dif_neg h, List.not_mem_nil] at hr

/-- C10: for every pair of integer block bounds the chunked scan loop of
`queryInChunks` terminates (the recursion below is total); in the degenerate
case `toBlock < fromBlock` it issues zero sub-queries and returns immediately,
and otherwise every iteration strictly advances the start bound. -/
theorem queryInChunks_total (a b : Int) :
    (b < a → chunkRanges a b = [] ∧
      ∀ cb : Int → Int → Except String (List RawLog), runChunks cb a b = []) ∧
    (chunkRanges a b).Chain' (fun p q => p.1 < q.1) := by
  constructor
  · intro hba
    constructor
    · rw [chunkRanges]
      rw [dif_neg (by omega)]
    · intro cb
      rw [runChunks]
      rw [dif_neg (by omega)]
  · exact (chunkRanges_chain a b).imp (fun _ _ h => h.2)

/-- Witness for C10 at the degenerate bounds `fromBlock = 10 > 5 = toBlock`. -/
theorem queryInChunks_total_witness :
    chunkRanges 10 5 = [] ∧ runChunks cbFail 10 5 = [] :=
  ⟨((queryInChunks_total 10 5).1 (by norm_num)).1,
   ((queryInChunks_total 10 5).1 (by norm_num)).2 cbFail⟩

/-- C3: a sub-range whose query fails (even after all retry attempts, since the
retry wrapper rethrows into the chunk loop's `try/catch`) contributes an empty
log list, and the sub-ranges the loop issues do not depend on any callback
outcome, so every subsequent sub-range of the same scan is still processed. -/
theorem chunk_failure_isolated {α : Type} (cb : Int → Int → Except String (List α))
    (a b : Int) :
    (runChunks cb a b).map Prod.fst = chunkRanges a b ∧
    ∀ r ∈ runChunks cb a b,
      r.2 = match cb r.1.1 r.1.2 with
        | .ok ls => ls
        | .error _ => [] :=
  ⟨runChunks_map_fst cb a b, runChunks_snd cb a b⟩

/-- Witness for C3: with a callback that throws on every sub-range over
`[0, 10001]`, the issued sub-ranges still equal the failure-free chunking, and
the first sub-range's result is empty. -/
theorem chunk_failure_isolated_witness :
    (runChunks cbFail 0 10001).map Prod.fst = chunkRanges 0 10001 ∧
    (((0 : Int), (5000 : Int)), ([] : List RawLog)).2 =
      match cbFail 0 5000 with
      | .ok ls => ls
      | .error _ => [] := by
  refine ⟨(chunk_failure_isolated cbFail 0 10001).1, ?_⟩
  have hmem : (((0 : Int), (5000 : Int)), ([] : List RawLog)) ∈ runChunks cbFail 0 10001 := by
    rw [runChunks]
    norm_num [CHUNK, cbFail]
  exact (chunk_failure_isolated cbFail 0 10001).2 _ hmem

/-- C2 counterexample: over the range `[0, 10001]` (width 10001 blocks counted
exclusively, 10002 inclusively, both wider than `CHUNK = 5000`), the loop
issues 2 sub-queries, not `⌈range / CHUNK⌉ = 3` (each iteration covers
`CHUNK + 1` block numbers, `[start, start + CHUNK]` inclusive). -/
theorem chunked_scan_count_counterexample :
    (chunkRanges 0 10001).length = 2 ∧
    (chunkRanges 0 10001).length ≠ (((10001 : Int) - 0 + (CHUNK - 1)) / CHUNK).toNat ∧
    (chunkRanges 0 10001).length ≠ (((10001 : Int) - 0 + 1 + (CHUNK - 1)) / CHUNK).toNat := by
  have h2 : (chunkRanges 0 10001).length = 2 := by
    rw [chunkRanges]
    norm_num [CHUNK]
    rw [chunkRanges]
    norm_num [CHUNK]
    rw [chunkRanges]
    norm_num
  refine ⟨h2, ?_, ?_⟩ <;> rw [h2] <;> decide

/-- C2 (amended): for a block range wider than `CHUNK`, the scanner partitions
`[fromBlock, toBlock]` into consecutive sub-ranges (each next start is the
previous end plus one) whose width `end - start` is at most `CHUNK`, issues
exactly `⌊(toBlock - fromBlock) / (CHUNK + 1)⌋ + 1` sub-queries (not
`⌈range / CHUNK⌉`: each sub-query spans `CHUNK + 1` block numbers inclusively),
and when the chain history is sorted by block number the resulting log entries
come out in non-decreasing block-number order. -/
theorem chunked_scan_spec (chain : List RawLog) (a b : Int)
    (hw : CHUNK < b - a)
    (hs : chain.Pairwise (fun x y => x.blockNumber ≤ y.blockNumber)) :
    (runChunks (fun lo hi => .ok (queryFilterModel chain lo hi)) a b).map Prod.fst =
      chunkRanges a b ∧
    (chunkRanges a b).length = (b - a).toNat / (CHUNK.toNat + 1) + 1 ∧
    (∀ p ∈ chunkRanges a b, a ≤ p.1 ∧ p.1 ≤ p.2 ∧ p.2 ≤ b ∧ p.2 - p.1 ≤ CHUNK) ∧
    (chunkRanges a b).Chain' (fun p q => q.1 = p.2 + 1) ∧
    (scanChain chain a b).Pairwise (fun x y => x.blockNumber ≤ y.blockNumber) := by
  have hab : a ≤ b := by
    simp only [CHUNK] at hw
    omega
  exact ⟨runChunks_map_fst _ a b, chunkRanges_length a b hab, chunkRanges_mem a b,
    (chunkRanges_chain a b).imp (fun _ _ h => h.1), scanChain_sorted chain hs a b⟩

/-- Witness for C2 (amended) over `[0, 6000]` with a sorted two-log history:
two sub-queries are issued and the scanned logs stay sorted. -/
theorem chunked_scan_spec_witness :
    (chunkRanges 0 6000).length = ((6000 : Int) - 0).toNat / (CHUNK.toNat + 1) + 1 ∧
    (scanChain chainS 0 6000).Pairwise
      (fun x y => x.blockNumber ≤ y.blockNumber) := by
  have h := chunked_scan_spec chainS 0 6000 (by norm_num [CHUNK])
    (by norm_num [chainS, List.pairwise_cons])
  exact ⟨h.2.1, h.2.2.2.2⟩

/-! ## Retry wrapper lemmas -/

theorem safeQueryGo_eq_ok {α : Type} (q : Nat → Except String α) (retry : Nat)
    (v : α) (h : q retry = .ok v) : safeQueryGo q retry = (.ok v, 1, []) := by
  rw [safeQueryGo, h]

theorem safeQueryGo_eq_error_lt {α : Type} (q : Nat → Except String α) (retry : Nat)
    (e : String) (h : q retry = .error e) (h3 : retry < 3) :
    safeQueryGo q retry =
      ((safeQueryGo q (retry + 1)).1, (safeQueryGo q (retry + 1)).2.1 + 1,
        2000 * (retry + 1) :: (safeQueryGo q (retry + 1)).2.2) := by
  rw [safeQueryGo, h]
  simp only [dif_pos h3]

theorem safeQueryGo_eq_error_ge {α : Type} (q : Nat → Except String α) (retry : Nat)
    (e : String) (h : q retry = .error e) (h3 : ¬retry < 3) :
    safeQueryGo q retry = (.error e, 1, []) := by
  rw [safeQueryGo, h]
  simp only [dif_neg h3]

theorem safeQueryGo_attempts_pos {α : Type} (q : Nat → Except String α) (retry : Nat) :
    1 ≤ (safeQueryGo q retry).2.1 := by
  cases hq : q retry with
  | ok v => rw [safeQueryGo_eq_ok q retry v hq]
  | error e =>
    by_cases h3 : retry < 3
    · rw [safeQueryGo_eq_error_lt q retry e hq h3]
      dsimp only
      omega
    · rw [safeQueryGo_eq_error_ge q retry e hq h3]

theorem safeQueryGo_attempts_le {α : Type} (q : Nat → Except String α) :
    ∀ k retry : Nat, 3 - retry ≤ k → (safeQueryGo q retry).2.1 ≤ 3 - retry + 1 := by
  intro k
  induction k with
  | zero =>
    intro retry hr
    cases hq : q retry with
    | ok v =>
      rw [safeQueryGo_eq_ok q retry v hq]
      dsimp only
      omega
    | error e =>
      rw [safeQueryGo_eq_error_ge q retry e hq (by omega)]
      dsimp only
      omega
  | succ k ih =>
    intro retry hr
    cases hq : q retry with
    | ok v =>
      rw [safeQueryGo_eq_ok q retry v hq]
      dsimp only
      omega
    | error e =>
      by_cases h3 : retry < 3
      · rw [safeQueryGo_eq_error_lt q retry e hq h3]
        dsimp only
        have := ih (retry + 1) (by omega)
        omega
      · rw [safeQueryGo_eq_error_ge q retry e hq h3]
        dsimp only
        omega

theorem safeQueryGo_delays {α : Type} (q : Nat → Except String α) :
    ∀ k retry : Nat, 3 - retry ≤ k →
      (safeQueryGo q retry).2.2 =
        (List.range ((safeQueryGo q retry).2.1 - 1)).map
          (fun j => 2000 * (retry + j + 1)) := by
  intro k
  induction k with
  | zero =>
    intro retry hr
    cases hq : q retry with
    | ok v =>
      rw [safeQueryGo_eq_ok q retry v hq]
      simp
    | error e =>
      rw [safeQueryGo_eq_error_ge q retry e hq (by omega)]
      simp
  | succ k ih =>
    intro retry hr
    cases hq : q retry with
    | ok v =>
      rw [safeQueryGo_eq_ok q retry v hq]
      simp
    | error e =>
      by_cases h3 : retry < 3
      · rw [safeQueryGo_eq_error_lt q retry e hq h3]
        dsimp only
        have hih := ih (retry + 1) (by omega)
        have hpos := safeQueryGo_attempts_pos q (retry + 1)
        obtain ⟨m, hm⟩ : ∃ m, (safeQueryGo q (retry + 1)).2.1 = m + 1 :=
          ⟨(safeQueryGo q (retry + 1)).2.1 - 1, by omega⟩
        rw [hm] at hih
        rw [hm]
        simp only [Nat.add_sub_cancel] at hih ⊢
        rw [hih, List.range_succ_eq_map, List.map_cons, List.map_map]
        congr 1
        apply List.map_congr_left
        intro j _
        simp only [Function.comp_apply]
        omega
      · rw [safeQueryGo_eq_error_ge q retry e hq h3]
        simp

theorem safeQueryGo_all_fail {α : Type} (q : Nat → Except String α) :
    ∀ k retry : Nat, 3 - retry ≤ k → retry ≤ 3 →
      (∀ j, retry ≤ j → j ≤ 3 → (q j).isOk = false) →
      (safeQueryGo q retry).1 = q 3 ∧ (safeQueryGo q retry).2.1 = 4 - retry := by
  intro k
  induction k with
  | zero =>
    intro retry hr hr3 hfail
    have h33 : retry = 3 := by omega
    subst h33
    cases hq : q 3 with
    | ok v =>
      have hf := hfail 3 (by omega) (by omega)
      rw [hq] at hf
      simp [Except.isOk, Except.toBool] at hf
    | error e =>
      rw [safeQueryGo_eq_error_ge q 3 e hq (by omega)]
      exact ⟨rfl, rfl⟩
  | succ k ih =>
    intro retry hr hr3 hfail
    by_cases h3 : retry < 3
    · cases hq : q retry with
      | ok v =>
        have hf := hfail retry (by omega) (by omega)
        rw [hq] at hf
        simp [Except.isOk, Except.toBool] at hf
      | error e =>
        rw [safeQueryGo_eq_error_lt q retry e hq h3]
        have hih := ih (retry + 1) (by omega) (by omega)
          (fun j hj1 hj2 => hfail j (by omega) hj2)
        refine ⟨hih.1, ?_⟩
        dsimp only
        rw [hih.2]
        omega
    · have h33 : retry = 3 := by omega
      subst h33
      cases hq : q 3 with
      | ok v =>
        have hf := hfail 3 (by omega) (by omega)
        rw [hq] at hf
        simp [Except.isOk, Except.toBool] at hf
      | error e =>
        rw [safeQueryGo_eq_error_ge q 3 e hq (by omega)]
        exact ⟨rfl, rfl⟩

theorem safeQueryGo_error_all_fail {α : Type} (q : Nat → Except String α) :
    ∀ k retry : Nat, 3 - retry ≤ k → retry ≤ 3 →
      ∀ e, (safeQueryGo q retry).1 = .error e →
        ∀ j, retry ≤ j → j ≤ 3 → (q j).isOk = false := by
  intro k
  induction k with
  | zero =>
    intro retry hr hr3 e he j hj1 hj2
    have h33 : retry = 3 := by omega
    subst h33
    have hj3 : j = 3 := by omega
    subst hj3
    cases hq : q 3 with
    | ok v =>
      rw [safeQueryGo_eq_ok q 3 v hq] at he
      simp at he
    | error e2 => rfl
  | succ k ih =>
    intro retry hr hr3 e he j hj1 hj2
    by_cases h3 : retry < 3
    · rcases Nat.eq_or_lt_of_le hj1 with rfl | hlt
      · cases hq : q retry with
        | ok v =>
          rw [safeQueryGo_eq_ok q retry v hq] at he
          simp at he
        | error e2 => rfl
      · cases hq : q retry with
        | ok v =>
          rw [safeQueryGo_eq_ok q retry v hq] at he
          simp at he
        | error e2 =>
          rw [safeQueryGo_eq_error_lt q retry e2 hq h3] at he
          dsimp only at he
          exact ih (retry + 1) (by omega) (by omega) e he j (by omega) hj2
    · have h33 : retry = 3 := by omega
      subst h33
      have hj3 : j = 3 := by omega
      subst hj3
      cases hq : q 3 with
      | ok v =>
        rw [safeQueryGo_eq_ok q 3 v hq] at he
        simp at he
      | error e2 => rfl

theorem safeQueryGo_ok_exists {α : Type} (q : Nat → Except String α) :
    ∀ k retry : Nat, 3 - retry ≤ k → retry ≤ 3 →
      ∀ v, (safeQueryGo q retry).1 = .ok v →
        ∃ j, retry ≤ j ∧ j ≤ 3 ∧ q j = .ok v := by
  intro k
  induction k with
  | zero =>
    intro retry hr hr3 v hv
    have h33 : retry = 3 := by omega
    subst h33
    cases hq : q 3 with
    | ok w =>
      rw [safeQueryGo_eq_ok q 3 w hq] at hv
      simp at hv
      exact ⟨3, by omega, by omega, by rw [hq, hv]⟩
    | error e =>
      rw [safeQueryGo_eq_error_ge q 3 e hq (by omega)] at hv
      simp at hv
  | succ k ih =>
    intro retry hr hr3 v hv
    by_cases h3 : retry < 3
    · cases hq : q retry with
      | ok w =>
        rw [safeQueryGo_eq_ok q retry w hq] at hv
        simp at hv
        exact ⟨retry, by omega, by omega, by rw [hq, hv]⟩
      | error e =>
        rw [safeQueryGo_eq_error_lt q retry e hq h3] at hv
        dsimp only at hv
        obtain ⟨j, hj1, hj2, hj3⟩ := ih (retry + 1) (by omega) (by omega) v hv
        exact ⟨j, by omega, hj2, hj3⟩
    · have h33 : retry = 3 := by omega
      subst h33
      cases hq : q 3 with
      | ok w =>
        rw [safeQueryGo_eq_ok q 3 w hq] at hv
        simp at hv
        exact ⟨3, by omega, by omega, by rw [hq, hv]⟩
      | error e =>
        rw [safeQueryGo_eq_error_ge q 3 e hq (by omega)] at hv
        simp at hv

/-- C4 counterexample: `safeQueryFilter` recurses while `retry < 3` starting
from `retry = 0`, so a query that always fails is attempted 4 times, not at
most 3. -/
theorem safeQueryFilter_attempts_counterexample :
    (safeQueryFilter qFail).2.1 = 4 ∧ ¬(safeQueryFilter qFail).2.1 ≤ 3 := by
  have h : safeQueryFilter qFail = (.error "boom", 4, [2000, 4000, 6000]) := by
    unfold safeQueryFilter
    rw [safeQueryGo]
    norm_num [qFail]
    rw [safeQueryGo]
    norm_num [qFail]
    rw [safeQueryGo]
    norm_num [qFail]
    rw [safeQueryGo]
    norm_num [qFail]
  rw [h]
  norm_num

/-- C4 (amended): the retrying wrapper performs at most 4 attempts for one
sub-range (the initial call plus up to 3 retries, since it recurses while
`retry < 3`), waits base delay 2000 ms times the attempt number between
consecutive attempts, returns the query result immediately on the first
successful attempt, and propagates a failure only after every attempt has
failed — in which case it made exactly 4 attempts and the propagated error is
the final attempt's. -/
theorem safeQueryFilter_retry_policy {α : Type} (q : Nat → Except String α) :
    (safeQueryFilter q).2.1 ≤ 4 ∧
    (safeQueryFilter q).2.2 =
      (List.range ((safeQueryFilter q).2.1 - 1)).map (fun j => 2000 * (j + 1)) ∧
    (∀ v, q 0 = .ok v → safeQueryFilter q = (.ok v, 1, [])) ∧
    ((∀ j, j ≤ 3 → (q j).isOk = false) →
      (safeQueryFilter q).1 = q 3 ∧ (safeQueryFilter q).2.1 = 4) ∧
    (∀ e, (safeQueryFilter q).1 = .error e → ∀ j, j ≤ 3 → (q j).isOk = false) ∧
    (∀ v, (safeQueryFilter q).1 = .ok v → ∃ j, j ≤ 3 ∧ q j = .ok v) := by
  unfold safeQueryFilter
  refine ⟨?_, ?_, ?_, ?_, ?_, ?_⟩
  · have := safeQueryGo_attempts_le q 3 0 (by omega)
    omega
  · have := safeQueryGo_delays q 3 0 (by omega)
    simpa using this
  · intro v hv
    exact safeQueryGo_eq_ok q 0 v hv
  · intro hfail
    have := safeQueryGo_all_fail q 3 0 (by omega) (by omega)
      (fun j hj1 hj2 => hfail j hj2)
    simpa using this
  · intro e he j hj
    exact safeQueryGo_error_all_fail q 3 0 (by omega) (by omega) e he j (by omega) hj
  · intro v hv
    obtain ⟨j, _, hj2, hj3⟩ := safeQueryGo_ok_exists q 3 0 (by omega) (by omega) v hv
    exact ⟨j, hj2, hj3⟩

/-- Witness for C4 at two concrete queries: one that succeeds immediately
(1 attempt, no delay) and one that always fails (failure propagated, 4
attempts). -/
theorem safeQueryFilter_retry_policy_witness :
    safeQueryFilter qOk = (.ok [], 1, []) ∧
    ((safeQueryFilter qFail).1 = qFail 3 ∧ (safeQueryFilter qFail).2.1 = 4) :=
  ⟨(safeQueryFilter_retry_policy qOk).2.2.1 [] rfl,
   (safeQueryFilter_retry_policy qFail).2.2.2.1 (fun j hj => rfl)⟩

/-- C7: normalizing an `OrderValidated` log whose offer array is empty yields
`tokenId = null` (the optional-chained `offer?.[0]` degrades to `undefined`,
coerced to `null`) rather than an error, and the payload is still built with
its remaining fields populated. -/
theorem orderValidated_empty_offer (nftAddr marketAddr : String)
    (ev : ValidatedLog) (h : ev.offer = []) :
    (normalizeValidated nftAddr marketAddr ev).tokenId = none ∧
    (normalizeValidated nftAddr marketAddr ev).status = "active" ∧
    (normalizeValidated nftAddr marketAddr ev).orderHash = ev.orderHash ∧
    (normalizeValidated nftAddr marketAddr ev).sellerAddress =
      jsStrOrNull ev.offerer.toLower ∧
    (normalizeValidated nftAddr marketAddr ev).price =
      ev.consideration.head?.map (fun c => formatUnits18 c.startAmount) ∧
    (normalizeValidated nftAddr marketAddr ev).nftContract = nftAddr ∧
    (normalizeValidated nftAddr marketAddr ev).marketplaceContract = marketAddr ∧
    (normalizeValidated nftAddr marketAddr ev).onChainBlock = ev.blockNumber := by
  simp [normalizeValidated, h]

/-- Witness for C7 at a concrete `OrderValidated` log with an empty offer
array. -/
theorem orderValidated_empty_offer_witness :
    (normalizeValidated "0xNFT" "0xSEAPORT" evValidatedA).tokenId = none ∧
    (normalizeValidated "0xNFT" "0xSEAPORT" evValidatedA).status = "active" ∧
    (normalizeValidated "0xNFT" "0xSEAPORT" evValidatedA).orderHash =
      evValidatedA.orderHash ∧
    (normalizeValidated "0xNFT" "0xSEAPORT" evValidatedA).sellerAddress =
      jsStrOrNull evValidatedA.offerer.toLower ∧
    (normalizeValidated "0xNFT" "0xSEAPORT" evValidatedA).price =
      evValidatedA.consideration.head?.map (fun c => formatUnits18 c.startAmount) ∧
    (normalizeValidated "0xNFT" "0xSEAPORT" evValidatedA).nftContract = "0xNFT" ∧
    (normalizeValidated "0xNFT" "0xSEAPORT" evValidatedA).marketplaceContract =
      "0xSEAPORT" ∧
    (normalizeValidated "0xNFT" "0xSEAPORT" evValidatedA).onChainBlock =
      evValidatedA.blockNumber :=
  orderValidated_empty_offer "0xNFT" "0xSEAPORT" evValidatedA rfl

/-- C8: normalizing an `OrderFulfilled` log whose first consideration item has
`startAmount = "1000000000000000000"` renders the price with 18-decimal
fixed-point formatting as the string `"1.0"`. -/
theorem orderFulfilled_price_one (nftAddr marketAddr : String) (ev : FulfilledLog)
    (c : ConsiderationItem) (rest : List ConsiderationItem)
    (h : ev.consideration = c :: rest)
    (hc : c.startAmount = 1000000000000000000) :
    (normalizeFulfilled nftAddr marketAddr ev).price = some "1.0" := by
  have hfmt : formatUnits18 1000000000000000000 = "1.0" := by decide
  simp [normalizeFulfilled, h, hc, hfmt]

/-- Witness for C8 at a concrete `OrderFulfilled` log. -/
theorem orderFulfilled_price_one_witness :
    (normalizeFulfilled "0xNFT" "0xSEAPORT" evFulfilledA).price = some "1.0" :=
  orderFulfilled_price_one "0xNFT" "0xSEAPORT" evFulfilledA considerationOne []
    rfl rfl

/-- C9: `getProvider` rotation is round-robin over the fixed 4-element
`RPC_LIST` with a process-wide index that only advances by one per rotation:
the `RPC_LIST.length`-th subsequent rotation reads the same list position (the
same endpoint) again, and the rotations in between read pairwise-distinct
positions, so every other listed endpoint is tried exactly once in between. -/
theorem endpoint_rotation_round_robin (ch : NftChain) (st : ProvState) (i : Nat) :
    (getProvider ch i).2 = i + 1 ∧
    (rotateProvider ch st).providerIndex = st.providerIndex + 1 ∧
    (getProvider ch (i + (RPC_LIST ch).length)).1 = (getProvider ch i).1 ∧
    (∀ j k, j < (RPC_LIST ch).length → k < (RPC_LIST ch).length → j ≠ k →
      (i + j) % (RPC_LIST ch).length ≠ (i + k) % (RPC_LIST ch).length) := by
  have hlen : (RPC_LIST ch).length = 4 := rfl
  refine ⟨rfl, rfl, ?_, ?_⟩
  · unfold getProvider
    rw [hlen]
    have h4 : (i + 4) % 4 = i % 4 := by omega
    rw [h4]
  · rw [hlen]
    intro j k hj hk hjk
    omega

/-- Witness for C9: starting from rotation index 6, the first and second
subsequent rotations read distinct positions of the 4-element list. -/
theorem endpoint_rotation_round_robin_witness :
    (6 + 1) % (RPC_LIST nftChainA).length ≠ (6 + 2) % (RPC_LIST nftChainA).length :=
  (endpoint_rotation_round_robin nftChainA { providerIndex := 0, current := "" } 6).2.2.2
    1 2 (by decide) (by decide) (by decide)

/-! ## Ownership sync lemmas -/

theorem rotateProvider_mem (ch : NftChain) (st : ProvState) :
    (rotateProvider ch st).current ∈ RPC_LIST ch := by
  have hlt : st.providerIndex % (RPC_LIST ch).length < (RPC_LIST ch).length := by
    have hlen : (RPC_LIST ch).length = 4 := rfl
    rw [hlen]
    omega
  unfold rotateProvider getProvider
  dsimp only
  rw [List.getD_eq_getElem _ _ hlt]
  exact List.getElem_mem hlt

theorem initialProvState_mem (ch : NftChain) :
    (initialProvState ch).current ∈ RPC_LIST ch :=
  rotateProvider_mem ch _

theorem tryReads_ok (ch : NftChain) (t : Nat) (ow uri : String)
    (hok : ∀ e ∈ RPC_LIST ch, ch.ownerOf e t = .ok ow ∧ ch.tokenURI e t = .ok uri) :
    ∀ k : Nat, 0 < k → ∀ st : ProvState, st.current ∈ RPC_LIST ch →
      tryReads ch t k st = (st, some (ow, uri)) := by
  intro k hk st hmem
  cases k with
  | zero => omega
  | succ k =>
    simp [tryReads, (hok st.current hmem).1, (hok st.current hmem).2]

theorem tryReads_fail (ch : NftChain) (t : Nat)
    (hbad : ∀ e ∈ RPC_LIST ch,
      (∃ s, ch.ownerOf e t = .error s) ∨ (∃ s, ch.tokenURI e t = .error s)) :
    ∀ k : Nat, ∀ st : ProvState, st.current ∈ RPC_LIST ch →
      (tryReads ch t k st).2 = none ∧ (tryReads ch t k st).1.current ∈ RPC_LIST ch := by
  intro k
  induction k with
  | zero =>
    intro st hmem
    exact ⟨rfl, hmem⟩
  | succ k ih =>
    intro st hmem
    rcases hbad st.current hmem with ⟨s, hs⟩ | ⟨s, hs⟩
    · simp only [tryReads, hs]
      exact ih (rotateProvider ch st) (rotateProvider_mem ch st)
    · cases ho : ch.ownerOf st.current t with
      | error s2 =>
        simp only [tryReads, ho]
        exact ih (rotateProvider ch st) (rotateProvider_mem ch st)
      | ok w =>
        simp only [tryReads, ho, hs]
        exact ih (rotateProvider ch st) (rotateProvider_mem ch st)

theorem processNFT_ok (ch : NftChain) (t : Nat) (ow uri : String)
    (hok : ∀ e ∈ RPC_LIST ch, ch.ownerOf e t = .ok ow ∧ ch.tokenURI e t = .ok uri)
    (st : ProvState) (hmem : st.current ∈ RPC_LIST ch) :
    processNFT ch st t = (st, some
      { token_id := toString t
        nft_contract := ch.contractAddress
        owner_address := ow.toLower
        name :=
          match ch.fetchName (toGatewayURL uri) with
          | .ok v => v
          | .error _ => none }) := by
  unfold processNFT
  rw [tryReads_ok ch t ow uri hok (RPC_LIST ch).length (by simp [RPC_LIST]) st hmem]

theorem processNFT_fail (ch : NftChain) (t : Nat)
    (hbad : ∀ e ∈ RPC_LIST ch,
      (∃ s, ch.ownerOf e t = .error s) ∨ (∃ s, ch.tokenURI e t = .error s))
    (st : ProvState) (hmem : st.current ∈ RPC_LIST ch) :
    (processNFT ch st t).2 = none ∧ (processNFT ch st t).1.current ∈ RPC_LIST ch := by
  have h := tryReads_fail ch t hbad (RPC_LIST ch).length st hmem
  unfold processNFT
  cases htr : tryReads ch t (RPC_LIST ch).length st with
  | mk st2 r =>
    rw [htr] at h
    cases r with
    | none => simpa using h
    | some p => simp at h

theorem runTokens_spec (ch : NftChain) (good : Nat → Bool) (ow uris : Nat → String)
    (hgood : ∀ t, good t = true → ∀ e ∈ RPC_LIST ch,
      ch.ownerOf e t = .ok (ow t) ∧ ch.tokenURI e t = .ok (uris t))
    (hbad : ∀ t, good t = false → ∀ e ∈ RPC_LIST ch,
      (∃ s, ch.ownerOf e t = .error s) ∨ (∃ s, ch.tokenURI e t = .error s)) :
    ∀ ts : List Nat, ∀ st : ProvState, st.current ∈ RPC_LIST ch →
      (runTokens ch st ts).2 = (ts.filter good).map (expectedRecord ch ow uris) ∧
      (runTokens ch st ts).1.current ∈ RPC_LIST ch := by
  intro ts
  induction ts with
  | nil =>
    intro st hmem
    exact ⟨rfl, hmem⟩
  | cons t ts ih =>
    intro st hmem
    cases hgt : good t with
    | true =>
      have hp := processNFT_ok ch t (ow t) (uris t) (hgood t hgt) st hmem
      have hih := ih st hmem
      simp only [runTokens, hp]
      constructor
      · simp only [List.filter_cons, hgt, if_true, List.map_cons, Option.toList_some,
          List.cons_append, List.nil_append]
        rw [hih.1]
        rfl
      · exact hih.2
    | false =>
      have hp := processNFT_fail ch t (hbad t hgt) st hmem
      have hih := ih (processNFT ch st t).1 hp.2
      simp only [runTokens]
      constructor
      · rw [hp.1]
        simp only [Option.toList_none, List.nil_append, List.filter_cons, hgt]
        rw [hih.1]
        simp
      · exact hih.2

theorem filter_range' : ∀ (k s n : Nat),
    (List.range' s k).filter (fun id => decide (id < n)) =
      List.range' s (min k (n - s)) := by
  intro k
  induction k with
  | zero =>
    intro s n
    simp
  | succ k ih =>
    intro s n
    rw [List.range'_succ, List.filter_cons]
    by_cases h : s < n
    · have hmin : min (k + 1) (n - s) = min k (n - (s + 1)) + 1 := by omega
      rw [hmin, List.range'_succ]
      simp [h, ih (s + 1) n]
    · have h1 : min k (n - (s + 1)) = 0 := by omega
      have h2 : min (k + 1) (n - s) = 0 := by omega
      rw [h2]
      simp [h, ih (s + 1) n, h1]

theorem batch_eq (i n : Nat) :
    ((List.range BATCH_SIZE).map (fun j => i + j)).filter (fun id => decide (id < n)) =
      List.range' i (min BATCH_SIZE (n - i)) := by
  rw [← List.range'_eq_map_range]
  exact filter_range' BATCH_SIZE i n

theorem batchLoop_spec (ch : NftChain) (good : Nat → Bool) (ow uris : Nat → String)
    (hgood : ∀ t, good t = true → ∀ e ∈ RPC_LIST ch,
      ch.ownerOf e t = .ok (ow t) ∧ ch.tokenURI e t = .ok (uris t))
    (hbad : ∀ t, good t = false → ∀ e ∈ RPC_LIST ch,
      (∃ s, ch.ownerOf e t = .error s) ∨ (∃ s, ch.tokenURI e t = .error s))
    (n : Nat) :
    ∀ k i : Nat, ∀ st : ProvState, n - i ≤ k → st.current ∈ RPC_LIST ch →
      (batchLoop ch n st i).2 =
        ((List.range' i (n - i)).filter good).map (expectedRecord ch ow uris) := by
  intro k
  induction k with
  | zero =>
    intro i st hk hmem
    rw [batchLoop]
    rw [dif_neg (by omega)]
    have h0 : n - i = 0 := by omega
    simp [h0]
  | succ k ih =>
    intro i st hk hmem
    by_cases hin : i < n
    · rw [batchLoop]
      rw [dif_pos hin]
      dsimp only
      rw [batch_eq i n]
      have hrt := runTokens_spec ch good ow uris hgood hbad
        (List.range' i (min BATCH_SIZE (n - i))) st hmem
      rw [hrt.1]
      have hih := ih (i + BATCH_SIZE) (runTokens ch st
          (List.range' i (min BATCH_SIZE (n - i)))).1
        (by simp only [BATCH_SIZE] at *; omega) hrt.2
      rw [hih]
      rw [← List.map_append, ← List.filter_append]
      by_cases hge : i + BATCH_SIZE ≤ n
      · have hmin : min BATCH_SIZE (n - i) = BATCH_SIZE := by
          simp only [BATCH_SIZE] at *
          omega
        have happ := List.range'_append i BATCH_SIZE (n - (i + BATCH_SIZE)) 1
        rw [show i + 1 * BATCH_SIZE = i + BATCH_SIZE by ring] at happ
        rw [show n - (i + BATCH_SIZE) + BATCH_SIZE = n - i by
          simp only [BATCH_SIZE] at *; omega] at happ
        rw [hmin, happ]
      · have hmin : min BATCH_SIZE (n - i) = n - i := by
          simp only [BATCH_SIZE] at *
          omega
        have h0 : n - (i + BATCH_SIZE) = 0 := by
          simp only [BATCH_SIZE] at *
          omega
        rw [hmin, h0]
        simp
    · rw [batchLoop]
      rw [dif_neg hin]
      have h0 : n - i = 0 := by omega
      simp [h0]

theorem nftMain_records (ch : NftChain) (good : Nat → Bool) (ow uris : Nat → String)
    (n : Nat) (hts : ch.totalSupply ch.apechainRpc = .ok n)
    (hgood : ∀ t, good t = true → ∀ e ∈ RPC_LIST ch,
      ch.ownerOf e t = .ok (ow t) ∧ ch.tokenURI e t = .ok (uris t))
    (hbad : ∀ t, good t = false → ∀ e ∈ RPC_LIST ch,
      (∃ s, ch.ownerOf e t = .error s) ∨ (∃ s, ch.tokenURI e t = .error s)) :
    nftMain ch = .ok (((List.range n).filter good).map (expectedRecord ch ow uris)) := by
  unfold nftMain
  have hcur : (initialProvState ch).current = ch.apechainRpc := rfl
  rw [hcur, hts]
  dsimp only
  have h := batchLoop_spec ch good ow uris hgood hbad n n 0 (initialProvState ch)
    (by omega) (initialProvState_mem ch)
  rw [h]
  rw [Nat.sub_zero, ← List.range_eq_range']

theorem nftChainA_hgood : ∀ t, goodA t = true → ∀ e ∈ RPC_LIST nftChainA,
    nftChainA.ownerOf e t = .ok (ownersA t) ∧
    nftChainA.tokenURI e t = .ok (urisA t) := by
  intro t ht e _
  have ht1 : t ≠ 1 := by simpa [goodA] using ht
  constructor
  · simp [nftChainA, ownersA, ht1]
  · simp [nftChainA, urisA, ht1]

theorem nftChainA_hbad : ∀ t, goodA t = false → ∀ e ∈ RPC_LIST nftChainA,
    (∃ s, nftChainA.ownerOf e t = .error s) ∨
    (∃ s, nftChainA.tokenURI e t = .error s) := by
  intro t ht e _
  have ht1 : t = 1 := by simpa [goodA] using ht
  left
  exact ⟨"down", by simp [nftChainA, ht1]⟩

/-- C1: for a chain state where every token is either readable on every
endpoint (with endpoint-independent owner and URI) or unreadable on every
endpoint, one ownership-sync run upserts exactly one `OwnershipRecord` per
readable token of `[0, totalSupply)`, in token order; an unreadable token is
absent from the output while all sibling tokens' records are still produced;
and a record whose off-chain metadata fetch fails is still produced, with
`name = null`. -/
theorem ownership_sync_records (ch : NftChain) (good : Nat → Bool)
    (ow uris : Nat → String) (n : Nat)
    (hts : ch.totalSupply ch.apechainRpc = .ok n)
    (hgood : ∀ t, good t = true → ∀ e ∈ RPC_LIST ch,
      ch.ownerOf e t = .ok (ow t) ∧ ch.tokenURI e t = .ok (uris t))
    (hbad : ∀ t, good t = false → ∀ e ∈ RPC_LIST ch,
      (∃ s, ch.ownerOf e t = .error s) ∨ (∃ s, ch.tokenURI e t = .error s)) :
    nftMain ch = .ok (((List.range n).filter good).map (expectedRecord ch ow uris)) ∧
    ∀ t s, ch.fetchName (toGatewayURL (uris t)) = .error s →
      (expectedRecord ch ow uris t).name = none := by
  constructor
  · exact nftMain_records ch good ow uris n hts hgood hbad
  · intro t s hf
    simp [expectedRecord, hf]

/-- Witness for C1 at the spec's example scenario: `totalSupply = 3`, token 1's
reads fail on every endpoint, metadata fetches all fail — the run produces
exactly the records of tokens 0 and 2, each with `name = null`. -/
theorem ownership_sync_records_witness :
    nftMain nftChainA =
      .ok (((List.range 3).filter goodA).map
        (expectedRecord nftChainA ownersA urisA)) ∧
    (expectedRecord nftChainA ownersA urisA 0).name = none ∧
    (expectedRecord nftChainA ownersA urisA 2).name = none := by
  have h := ownership_sync_records nftChainA goodA ownersA urisA 3 rfl
    nftChainA_hgood nftChainA_hbad
  exact ⟨h.1, h.2 0 "timeout" rfl, h.2 2 "timeout" rfl⟩

theorem applyUpserts_lookup : ∀ (rs : List NftRecord)
    (store : String → Option NftRecord) (k : String),
    applyUpserts store rs k =
      match rs.reverse.find? (fun r => decide (k = r.token_id)) with
      | some r => some r
      | none => store k := by
  intro rs
  induction rs with
  | nil =>
    intro store k
    rfl
  | cons r rs ih =>
    intro store k
    simp only [applyUpserts, List.foldl_cons] at *
    rw [ih (upsertRecord store r) k]
    rw [List.reverse_cons, List.find?_append]
    cases hf : rs.reverse.find? (fun r => decide (k = r.token_id)) with
    | some r2 => simp [Option.or]
    | none =>
      simp only [Option.or]
      by_cases hk : k = r.token_id
      · simp [List.find?, hk, upsertRecord]
      · simp [List.find?, hk, upsertRecord]

/-- C6: the run is a pure function of the chain responses (the embedding
`nftMain` is deterministic by construction, and the process-wide rotation index
restarts at 0 in a fresh process), so a second run against unchanged chain
state produces the same record list; and upserting that same list again into
any store keyed by `token_id` with overwrite conflict-resolution leaves the
store unchanged: the second run's upserts are pure overwrites with the same
values. -/
theorem ownership_sync_idempotent (ch : NftChain) (rs : List NftRecord)
    (store : String → Option NftRecord) (h : nftMain ch = .ok rs) :
    nftMain ch = .ok rs ∧
    applyUpserts (applyUpserts store rs) rs = applyUpserts store rs := by
  refine ⟨h, ?_⟩
  funext k
  rw [applyUpserts_lookup rs (applyUpserts store rs) k]
  rw [applyUpserts_lookup rs store k]
  cases hf : rs.reverse.find? (fun r => decide (k = r.token_id)) with
  | some r => rfl
  | none => rfl

/-- Witness for C6 at the concrete run of `nftChainA` against the empty
store. -/
theorem ownership_sync_idempotent_witness :
    applyUpserts
        (applyUpserts storeEmpty
          (((List.range 3).filter goodA).map (expectedRecord nftChainA ownersA urisA)))
        (((List.range 3).filter goodA).map (expectedRecord nftChainA ownersA urisA)) =
      applyUpserts storeEmpty
        (((List.range 3).filter goodA).map (expectedRecord nftChainA ownersA urisA)) :=
  (ownership_sync_idempotent nftChainA
    (((List.range 3).filter goodA).map (expectedRecord nftChainA ownersA urisA))
    storeEmpty
    (nftMain_records nftChainA goodA ownersA urisA 3 rfl
      nftChainA_hgood nftChainA_hbad)).2

theorem except_isOk_iff {ε β : Type} (e : Except ε β) :
    e.isOk = true ↔ ∃ v, e = .ok v := by
  cases e with
  | ok v => simp [Except.isOk, Except.toBool]
  | error e2 => simp [Except.isOk, Except.toBool]

/-- C5 (amended): the order sync exits 0 exactly when the three required env
variables are present and some listed endpoint answers the startup probe —
regardless of per-sub-range query failures or per-record backend rejections;
otherwise it exits non-zero. The ownership sync exits 0 exactly when the
initial `totalSupply` read on the initially bound endpoint (`RPC_LIST[0]`, the
configured primary) succeeds: because that read has no endpoint fallback, the
run can abort with a non-zero code even while other listed endpoints are
reachable. -/
theorem exit_code_policy (env : SeaportEnv) (sch : SeaportChain) (nch : NftChain) :
    (seaportExitCode env sch = 0 ↔
      jsFalsy env.BACKEND_URL = false ∧ jsFalsy env.NFT_CONTRACT_ADDRESS = false ∧
      jsFalsy env.SEAPORT_CONTRACT_ADDRESS = false ∧
      ∃ r ∈ (seaportRPCList env).filterMap (fun o => o.bind jsStrOrNull),
        (sch.getBlockNumber r).isOk = true) ∧
    (nftExitCode nch = 0 ↔ (nch.totalSupply nch.apechainRpc).isOk = true) := by
  constructor
  · unfold seaportExitCode seaportMain
    by_cases h1 : (jsFalsy env.BACKEND_URL || jsFalsy env.NFT_CONTRACT_ADDRESS
        || jsFalsy env.SEAPORT_CONTRACT_ADDRESS) = true
    · rw [if_pos h1]
      simp only [Bool.or_eq_true] at h1
      constructor
      · intro h10
        exact absurd h10 (by norm_num)
      · rintro ⟨hb, hn, hs, -⟩
        rw [hb, hn, hs] at h1
        simp at h1
    · rw [if_neg h1]
      simp only [Bool.or_eq_true, not_or, Bool.not_eq_true] at h1
      cases hip : initProvider env sch with
      | none =>
        unfold initProvider at hip
        constructor
        · intro h10
          exact absurd h10 (by norm_num)
        · rintro ⟨-, -, -, r, hr, hok⟩
          have := List.find?_eq_none.mp hip r hr
          rw [hok] at this
          simp at this
      | some p =>
        have hpok := List.find?_some hip
        obtain ⟨bn, hbn⟩ := (except_isOk_iff _).mp hpok
        dsimp only
        rw [hbn]
        dsimp only
        constructor
        · intro _
          refine ⟨h1.1.1, h1.1.2, h1.2, p, ?_, hpok⟩
          unfold initProvider at hip
          exact List.mem_of_find?_eq_some hip
        · intro _
          rfl
  · unfold nftExitCode nftMain
    have hcur : (initialProvState nch).current = nch.apechainRpc := rfl
    rw [hcur]
    cases ht : nch.totalSupply nch.apechainRpc with
    | ok n =>
      simp [Except.isOk, Except.toBool]
    | error e =>
      simp [Except.isOk, Except.toBool]

/-- C5 counterexample: `nftChainB` has a reachable public fallback endpoint
(its `totalSupply` answers there) and nothing resembling missing configuration,
yet the ownership sync exits non-zero, because the scope-determining
`totalSupply` read is issued only on the initially bound primary endpoint and
that endpoint is dead. -/
theorem exit_code_counterexample :
    nftExitCode nftChainB = 1 ∧
    ((RPC_LIST nftChainB).any (fun e => (nftChainB.totalSupply e).isOk)) = true := by
  constructor
  · rfl
  · decide

/-- Witness for C5 (amended): a fully configured order sync with one live
endpoint, throwing queries and a rejecting backend exits 0, and the ownership
sync against `nftChainA` (readable primary) exits 0. -/
theorem exit_code_policy_witness :
    seaportExitCode seaportEnvA seaportChainA = 0 ∧ nftExitCode nftChainA = 0 := by
  have h := exit_code_policy seaportEnvA seaportChainA nftChainA
  constructor
  · refine h.1.mpr ⟨rfl, rfl, rfl, "https://apechain.drpc.org", ?_, rfl⟩
    simp [seaportRPCList, seaportEnvA, jsStrOrNull]
  · exact h.2.mpr rfl
